import Mathlib

/-!
Verification of the paparazzi repository's core algorithms, shallowly
embedded in Lean 4. The embedding covers:

* the screenshot stitching and chunking pipeline
  (`packages/extension/src/background/screenshot/stitch.ts` and the
  full-page capture loop of the screenshot module),
* the console-log ring buffer of the debugger module
  (`packages/extension/src/background/debugger/console.ts`),
* the WebSocket request bridge of the MCP server
  (`packages/mcp-server/src/extension-bridge/websocket-server.ts`),
* the port allocator used by the bridge's port-discovery start-up,
  modelled from the spec because only its tests ship in the source tree.

JavaScript arithmetic on the integer quantities involved (pixel counts,
port numbers, list lengths) is translated to `Nat`, except where a
subtraction can be observed before a clamping comparison, where `Int`
is used.
-/

/-- `MAX_IMAGE_DIMENSION` from
`packages/extension/src/background/screenshot/constants.ts`:
maximum height (in pixels) of a single emitted image. -/
def MAX_IMAGE_DIMENSION : Nat := 7000

/-- `Math.ceil (a / b)` for natural `a` and positive natural `b`,
as used throughout the stitching code. For `b = 0` the JavaScript
original diverges or yields a non-finite value, so all theorems
assume `0 < b`. -/
def jsCeilDiv (a b : Nat) : Nat := (a + b - 1) / b

/-- `calculateChunkCount` from
`packages/extension/src/background/screenshot/stitch.ts`:
`Math.ceil(height / MAX_IMAGE_DIMENSION)`. -/
def calculateChunkCount (height : Nat) : Nat :=
  jsCeilDiv height MAX_IMAGE_DIMENSION

/-- `ScreenshotChunk` from the shared types package (image payload
omitted: it is an encoded bitmap, irrelevant to the geometric claims). -/
structure ScreenshotChunk where
  width : Nat
  height : Nat
  yOffset : Nat
  index : Nat
  total : Nat
deriving Repr, DecidableEq

/-- The chunk-splitting loop of `stitchToChunks` from
`packages/extension/src/background/screenshot/stitch.ts`: given the
viewport width, the page scroll height `h` and the maximum dimension
`m` (the source instantiates `m := MAX_IMAGE_DIMENSION`), emit
`Math.ceil(h / m)` chunks; chunk `i` (0-based loop counter) has
`yOffset = i * m`, `height = Math.min(m, h - yOffset)`, 1-based
`index = i + 1` and `total = numChunks`. -/
def stitchToChunks (viewportWidth h m : Nat) : List ScreenshotChunk :=
  (List.range (jsCeilDiv h m)).map fun i =>
    { width := viewportWidth
      height := min m (h - i * m)
      yOffset := i * m
      index := i + 1
      total := jsCeilDiv h m }

-- Arithmetic facts about `jsCeilDiv`.

lemma jsCeilDiv_mul_ge {h m : Nat} (hm : 0 < m) : h ≤ jsCeilDiv h m * m := by
  unfold jsCeilDiv
  have hdm := Nat.div_add_mod (h + m - 1) m
  have hlt : (h + m - 1) % m < m := Nat.mod_lt _ hm
  have hcomm : (h + m - 1) / m * m = m * ((h + m - 1) / m) := Nat.mul_comm _ _
  omega

lemma jsCeilDiv_pos {h m : Nat} (hh : 0 < h) (hm : 0 < m) :
    0 < jsCeilDiv h m := by
  unfold jsCeilDiv
  have : 1 ≤ (h + m - 1) / m := (Nat.one_le_div_iff hm).2 (by omega)
  omega

lemma jsCeilDiv_pred_mul_lt {h m : Nat} (hh : 0 < h) (hm : 0 < m) :
    (jsCeilDiv h m - 1) * m < h := by
  have hpos := jsCeilDiv_pos hh hm
  have hub : jsCeilDiv h m * m ≤ h + m - 1 := by
    unfold jsCeilDiv
    exact Nat.div_mul_le_self _ _
  have hsub : (jsCeilDiv h m - 1) * m = jsCeilDiv h m * m - m := by
    rw [Nat.sub_mul, Nat.one_mul]
  have hge : m ≤ jsCeilDiv h m * m := by
    calc m = 1 * m := (Nat.one_mul m).symm
    _ ≤ jsCeilDiv h m * m := Nat.mul_le_mul_right m hpos
  omega

lemma jsCeilDiv_of_mod_ne {h m : Nat} (hm : 0 < m) (hr : h % m ≠ 0) :
    jsCeilDiv h m = h / m + 1 := by
  have hdm := Nat.div_add_mod h m
  have hlt : h % m < m := Nat.mod_lt _ hm
  unfold jsCeilDiv
  have hrw : h + m - 1 = m * (h / m) + (h % m + m - 1) := by omega
  rw [hrw, Nat.mul_add_div hm]
  have hone : (h % m + m - 1) / m = 1 := by
    apply Nat.div_eq_of_lt_le
    · omega
    · omega
  omega

-- The chunk heights sum to `min (N * m) h`.

lemma sum_min_heights (m h : Nat) :
    ∀ N : Nat,
      (((List.range N).map fun i => min m (h - i * m)).sum) = min (N * m) h := by
  intro N
  induction N with
  | zero => simp
  | succ n ih =>
    rw [List.range_succ, List.map_append, List.sum_append, ih]
    simp only [List.map_cons, List.map_nil, List.sum_cons, List.sum_nil]
    rw [Nat.succ_mul]
    omega

lemma stitchToChunks_length (w h m : Nat) :
    (stitchToChunks w h m).length = jsCeilDiv h m := by
  simp [stitchToChunks]

lemma stitchToChunks_getElem (w h m j : Nat)
    (hj : j < (stitchToChunks w h m).length) :
    (stitchToChunks w h m)[j] =
      { width := w
        height := min m (h - j * m)
        yOffset := j * m
        index := j + 1
        total := jsCeilDiv h m } := by
  simp [stitchToChunks]

/-- C3: for every page height `h > 0` and maximum dimension `m > 0`, the
chunk list produced by `stitchToChunks` is ordered by index from 1 to
`⌈h/m⌉` with `total = ⌈h/m⌉`, each chunk's `yOffset` is `(index-1)*m`,
each chunk's height is at most `m`, the chunks form a contiguous
non-overlapping vertical partition of `[0, h)` (the heights sum to `h`
and each chunk begins where the previous one ends), and the last chunk's
height is `h - (total-1)*m`. -/
theorem stitchToChunks_partition (w h m : Nat) (hh : 0 < h) (hm : 0 < m) :
    (stitchToChunks w h m).length = jsCeilDiv h m ∧
    (∀ j, ∀ hj : j < (stitchToChunks w h m).length,
      (stitchToChunks w h m)[j].index = j + 1 ∧
      (stitchToChunks w h m)[j].total = jsCeilDiv h m ∧
      (stitchToChunks w h m)[j].yOffset =
        ((stitchToChunks w h m)[j].index - 1) * m ∧
      (stitchToChunks w h m)[j].yOffset = j * m ∧
      (stitchToChunks w h m)[j].height ≤ m) ∧
    (∀ j, ∀ hj1 : j < (stitchToChunks w h m).length,
      ∀ hj2 : j + 1 < (stitchToChunks w h m).length,
      (stitchToChunks w h m)[j].yOffset + (stitchToChunks w h m)[j].height =
        (stitchToChunks w h m)[j + 1].yOffset) ∧
    ((stitchToChunks w h m).map ScreenshotChunk.height).sum = h ∧
    (∀ hN : jsCeilDiv h m - 1 < (stitchToChunks w h m).length,
      (stitchToChunks w h m)[jsCeilDiv h m - 1].height =
        h - (jsCeilDiv h m - 1) * m) := by
  have hlen := stitchToChunks_length w h m
  have hub := jsCeilDiv_mul_ge (h := h) hm
  have hlb := jsCeilDiv_pred_mul_lt hh hm
  have hpos := jsCeilDiv_pos hh hm
  refine ⟨hlen, ?_, ?_, ?_, ?_⟩
  · intro j hj
    rw [stitchToChunks_getElem w h m j hj]
    refine ⟨rfl, rfl, ?_, ?_, ?_⟩
    · simp
    · rfl
    · exact Nat.min_le_left _ _
  · intro j hj1 hj2
    rw [stitchToChunks_getElem w h m j hj1,
        stitchToChunks_getElem w h m (j + 1) hj2]
    have hjN : j + 1 ≤ jsCeilDiv h m - 1 := by omega
    have hstep : (j + 1) * m ≤ (jsCeilDiv h m - 1) * m :=
      Nat.mul_le_mul_right m hjN
    have hfull : m ≤ h - j * m := by
      have : (j + 1) * m = j * m + m := by ring
      omega
    simp only
    have : min m (h - j * m) = m := Nat.min_eq_left hfull
    rw [this]
    ring
  · have hmap : (stitchToChunks w h m).map ScreenshotChunk.height =
        (List.range (jsCeilDiv h m)).map fun i => min m (h - i * m) := by
      simp [stitchToChunks, Function.comp]
    rw [hmap, sum_min_heights]
    omega
  · intro hN
    rw [stitchToChunks_getElem w h m _ hN]
    have hsub : (jsCeilDiv h m - 1) * m = jsCeilDiv h m * m - m := by
      rw [Nat.sub_mul, Nat.one_mul]
    have hge : m ≤ jsCeilDiv h m * m := by
      calc m = 1 * m := (Nat.one_mul m).symm
      _ ≤ jsCeilDiv h m * m := Nat.mul_le_mul_right m hpos
    simp only
    omega

/-- Witness for C3: the theorem applied to a page of height 15000 with
maximum dimension 7000 (three chunks: 7000, 7000, 1000). -/
theorem stitchToChunks_partition_witness :
    ((stitchToChunks 800 15000 7000).map ScreenshotChunk.height).sum = 15000 :=
  (stitchToChunks_partition 800 15000 7000 (by decide) (by decide)).2.2.2.1

/-- Counterexample for C9 as stated: the claim quantifies over every
height `h ≤ maxDimension`, but at `h = 0` the code computes
`Math.ceil(0 / 7000) = 0`, not 1. -/
theorem calculateChunkCount_zero_cex :
    (0 : Nat) ≤ MAX_IMAGE_DIMENSION ∧ calculateChunkCount 0 ≠ 1 := by
  decide

/-- C9 (amended: the height must be positive for the one-chunk case):
`calculateChunkCount h = 1` for `1 ≤ h ≤ maxDimension`, `= 2` for
`maxDimension < h ≤ 2*maxDimension`, is monotone non-decreasing, and
takes the stated values at 7000, 7001 and 14001 with the code's
`MAX_IMAGE_DIMENSION = 7000`. -/
theorem calculateChunkCount_spec :
    (∀ h : Nat, 0 < h → h ≤ MAX_IMAGE_DIMENSION → calculateChunkCount h = 1) ∧
    (∀ h : Nat, MAX_IMAGE_DIMENSION < h → h ≤ 2 * MAX_IMAGE_DIMENSION →
      calculateChunkCount h = 2) ∧
    (∀ h k : Nat, h ≤ k → calculateChunkCount h ≤ calculateChunkCount k) ∧
    calculateChunkCount 7000 = 1 ∧
    calculateChunkCount 7001 = 2 ∧
    calculateChunkCount 14001 = 3 := by
  refine ⟨?_, ?_, ?_, by decide, by decide, by decide⟩
  · intro h h1 h2
    simp only [calculateChunkCount, jsCeilDiv, MAX_IMAGE_DIMENSION] at *
    omega
  · intro h h1 h2
    simp only [calculateChunkCount, jsCeilDiv, MAX_IMAGE_DIMENSION] at *
    omega
  · intro h k hk
    simp only [calculateChunkCount, jsCeilDiv, MAX_IMAGE_DIMENSION]
    exact Nat.div_le_div_right (by omega)

/-- Witness for C9: a page of height 3 needs one chunk. -/
theorem calculateChunkCount_spec_witness : calculateChunkCount 3 = 1 :=
  calculateChunkCount_spec.1 3 (by decide) (by decide)

/-- `PageMetrics` from the shared types package: the snapshot of page
geometry read once at the start of `captureFullPage`. -/
structure PageMetrics where
  scrollHeight : Nat
  scrollWidth : Nat
  viewportHeight : Nat
  viewportWidth : Nat
  currentScrollY : Nat
  currentScrollX : Nat
deriving Repr, DecidableEq

/-- The scroll-and-capture `while` loop of `captureFullPage`
(screenshot capture module): starting from `scrollY = 0`, capture at
each position while `scrollY < scrollHeight`, advancing by
`viewportHeight` each iteration. Returns the list of scroll positions
captured, in order. The loop only terminates for a positive viewport
height, which the proof argument records. -/
def captureLoop (h vh : Nat) (hvh : 0 < vh) (y : Nat) : List Nat :=
  if _hy : y < h then y :: captureLoop h vh hvh (y + vh) else []
termination_by h - y
decreasing_by omega

lemma jsCeilDiv_zero {vh : Nat} (hvh : 0 < vh) : jsCeilDiv 0 vh = 0 := by
  unfold jsCeilDiv
  exact Nat.div_eq_of_lt (by omega)

lemma jsCeilDiv_sub_step {a vh : Nat} (hvh : 0 < vh) (ha : 0 < a) :
    jsCeilDiv a vh = jsCeilDiv (a - vh) vh + 1 := by
  unfold jsCeilDiv
  rcases le_or_lt a vh with hle | hlt
  · have h1 : a - vh = 0 := by omega
    rw [h1]
    have h2 : (0 + vh - 1) / vh = 0 := Nat.div_eq_of_lt (by omega)
    have h3 : (a + vh - 1) / vh = 1 :=
      Nat.div_eq_of_lt_le (by omega) (by omega)
    omega
  · have h1 : a + vh - 1 = (a - vh + vh - 1) + vh := by omega
    rw [h1, Nat.add_div_right _ hvh]

lemma captureLoop_eq_range (h vh : Nat) (hvh : 0 < vh) :
    ∀ n y, h - y ≤ n →
      captureLoop h vh hvh y =
        (List.range (jsCeilDiv (h - y) vh)).map fun i => y + i * vh := by
  intro n
  induction n with
  | zero =>
    intro y hy
    rw [captureLoop, dif_neg (by omega)]
    have h0 : h - y = 0 := by omega
    rw [h0, jsCeilDiv_zero hvh]
    simp
  | succ n ih =>
    intro y hy
    rw [captureLoop]
    by_cases hcase : y < h
    · rw [dif_pos hcase]
      rw [jsCeilDiv_sub_step hvh (a := h - y) (by omega)]
      have hsub : h - y - vh = h - (y + vh) := by omega
      rw [List.range_succ_eq_map, List.map_cons, List.map_map]
      rw [ih (y + vh) (by omega), hsub]
      refine List.cons_eq_cons.2 ⟨by simp, ?_⟩
      congr 1
      funext i
      simp [Function.comp, Nat.succ_mul]
      ring
    · rw [dif_neg hcase]
      have h0 : h - y = 0 := by omega
      rw [h0, jsCeilDiv_zero hvh]
      simp

/-- The capture plan chosen by `captureFullPage` (screenshot capture
module): either a single viewport capture, or a scrolled capture at the
listed scroll positions. The function receives the `PageMetrics`
snapshot as a single immutable argument, mirroring the source's single
`getPageMetrics` call per capture. -/
inductive CapturePlan where
  | singleViewport
  | scrolled (positions : List Nat)
deriving Repr, DecidableEq

/-- `captureFullPage` from the screenshot capture module, reduced to its
control flow: if `scrollHeight <= viewportHeight`, degrade to a single
viewport capture; otherwise run the scroll-and-capture loop from 0. -/
def captureFullPage (M : PageMetrics) (hvh : 0 < M.viewportHeight) :
    CapturePlan :=
  if M.scrollHeight ≤ M.viewportHeight then CapturePlan.singleViewport
  else CapturePlan.scrolled
    (captureLoop M.scrollHeight M.viewportHeight hvh 0)

/-- C6: for every full-page capture (metrics snapshot read once, as the
single `PageMetrics` argument), if `scrollHeight <= viewportHeight` the
capture degrades to a single viewport capture with no scrolling;
otherwise the orchestrator captures one segment at each scroll position
`0, viewportHeight, 2*viewportHeight, ...`, stopping when the position
reaches `scrollHeight`, so exactly `⌈scrollHeight/viewportHeight⌉`
segments are captured and every captured position is below
`scrollHeight`. -/
theorem captureFullPage_spec (M : PageMetrics) (hvh : 0 < M.viewportHeight) :
    (M.scrollHeight ≤ M.viewportHeight →
      captureFullPage M hvh = CapturePlan.singleViewport) ∧
    (M.viewportHeight < M.scrollHeight →
      captureFullPage M hvh = CapturePlan.scrolled
        ((List.range (jsCeilDiv M.scrollHeight M.viewportHeight)).map
          fun i => i * M.viewportHeight) ∧
      ((List.range (jsCeilDiv M.scrollHeight M.viewportHeight)).map
          fun i => i * M.viewportHeight).length
        = jsCeilDiv M.scrollHeight M.viewportHeight ∧
      ∀ y ∈ (List.range (jsCeilDiv M.scrollHeight M.viewportHeight)).map
          fun i => i * M.viewportHeight, y < M.scrollHeight) := by
  constructor
  · intro hle
    unfold captureFullPage
    rw [if_pos hle]
  · intro hlt
    have hh : 0 < M.scrollHeight := by omega
    refine ⟨?_, by simp, ?_⟩
    · unfold captureFullPage
      rw [if_neg (by omega)]
      rw [captureLoop_eq_range M.scrollHeight M.viewportHeight hvh
            M.scrollHeight 0 (by omega)]
      simp
    · intro y hy
      rcases List.mem_map.1 hy with ⟨i, hi, hiy⟩
      rcases List.mem_range.1 hi with hilt
      have hle : i ≤ jsCeilDiv M.scrollHeight M.viewportHeight - 1 := by omega
      have hmul : i * M.viewportHeight ≤
          (jsCeilDiv M.scrollHeight M.viewportHeight - 1) * M.viewportHeight :=
        Nat.mul_le_mul_right _ hle
      have hlast := jsCeilDiv_pred_mul_lt hh hvh
      omega

/-- A sample metrics snapshot: a 2000px-tall page seen through a 900px
viewport, 1500px of horizontal content in a 1000px-wide viewport. -/
def demoMetrics : PageMetrics :=
  { scrollHeight := 2000
    scrollWidth := 1500
    viewportHeight := 900
    viewportWidth := 1000
    currentScrollY := 0
    currentScrollX := 0 }

/-- Witness for C6: on `demoMetrics` the plan scrolls to positions
0, 900, 1800 — three segments for `⌈2000/900⌉ = 3`. -/
theorem captureFullPage_spec_witness :
    captureFullPage demoMetrics (by decide) = CapturePlan.scrolled
      ((List.range (jsCeilDiv demoMetrics.scrollHeight
          demoMetrics.viewportHeight)).map
        fun i => i * demoMetrics.viewportHeight) :=
  ((captureFullPage_spec demoMetrics (by decide)).2 (by decide)).1

/-- One `ctx.drawImage` call issued by `stitchToSingleImage`
(`packages/extension/src/background/screenshot/stitch.ts`): the segment
is drawn from source row `srcY` for `srcH` rows, at destination row
`destY` of the canvas. JavaScript subtraction is visible before the
`remainingHeight < viewportHeight` comparison, so these are `Int`. -/
structure DrawOp where
  srcY : Int
  srcH : Int
  destY : Int
deriving Repr, DecidableEq

/-- The compositing loop shared by `stitchToSingleImage` and
`stitchToChunks`: for segment `i` of `n`, `y = i * viewportHeight` and
`remainingHeight = scrollHeight - y`; the final segment is cropped to
its bottom `remainingHeight` rows when `remainingHeight <
viewportHeight`, every other segment is drawn whole. -/
def drawOps (n : Nat) (vh h : Int) : List DrawOp :=
  (List.range n).map fun i =>
    if i = n - 1 ∧ h - (i : Int) * vh < vh then
      { srcY := vh - (h - (i : Int) * vh)
        srcH := h - (i : Int) * vh
        destY := (i : Int) * vh }
    else
      { srcY := 0
        srcH := vh
        destY := (i : Int) * vh }

/-- The canvas allocated by `stitchToSingleImage` together with the
draw calls it issues. The source allocates
`new OffscreenCanvas(viewportWidth, scrollHeight)`. -/
structure SingleImagePlan where
  canvasWidth : Nat
  canvasHeight : Nat
  ops : List DrawOp
deriving Repr, DecidableEq

/-- `stitchToSingleImage` from
`packages/extension/src/background/screenshot/stitch.ts`, reduced to
its geometry: the canvas dimensions and the sequence of draw calls for
`n` captured segments. -/
def stitchToSingleImage (n : Nat) (M : PageMetrics) : SingleImagePlan :=
  { canvasWidth := M.viewportWidth
    canvasHeight := M.scrollHeight
    ops := drawOps n (M.viewportHeight : Int) (M.scrollHeight : Int) }

/-- Counterexample for C5 as stated: the claim says the canvas is
`scrollWidth × scrollHeight`, but the source allocates the canvas at
`viewportWidth`. On `demoMetrics` (`scrollWidth = 1500`,
`viewportWidth = 1000`) the two differ. -/
theorem stitchToSingleImage_width_cex :
    (stitchToSingleImage 3 demoMetrics).canvasWidth ≠
      demoMetrics.scrollWidth := by
  decide

/-- C5 (amended: the canvas is `viewportWidth × scrollHeight`, not
`scrollWidth × scrollHeight`): the Stitcher composes the `n =
⌈scrollHeight/viewportHeight⌉` ordered segments onto one canvas of
dimensions `viewportWidth × scrollHeight`; every non-final segment is
drawn at its full viewport height at destination row
`i * viewportHeight`, and when the remainder
`scrollHeight - floor(scrollHeight/viewportHeight) * viewportHeight`
(that is, `scrollHeight % viewportHeight`) is non-zero, the final
segment is cropped to only its bottom `remainder` rows before
compositing. -/
theorem stitchToSingleImage_spec (M : PageMetrics) (n : Nat)
    (hvh : 0 < M.viewportHeight) (_hh : 0 < M.scrollHeight)
    (hn : n = jsCeilDiv M.scrollHeight M.viewportHeight) :
    (stitchToSingleImage n M).canvasWidth = M.viewportWidth ∧
    (stitchToSingleImage n M).canvasHeight = M.scrollHeight ∧
    (stitchToSingleImage n M).ops.length = n ∧
    (∀ i, i + 1 < n →
      (stitchToSingleImage n M).ops[i]? =
        some { srcY := 0
               srcH := (M.viewportHeight : Int)
               destY := (i : Int) * (M.viewportHeight : Int) }) ∧
    (M.scrollHeight % M.viewportHeight ≠ 0 →
      (stitchToSingleImage n M).ops[n - 1]? =
        some { srcY := (M.viewportHeight : Int)
                 - ((M.scrollHeight % M.viewportHeight : Nat) : Int)
               srcH := ((M.scrollHeight % M.viewportHeight : Nat) : Int)
               destY := ((n - 1 : Nat) : Int) * (M.viewportHeight : Int) }) := by
  refine ⟨rfl, rfl, by simp [stitchToSingleImage, drawOps], ?_, ?_⟩
  · intro i hi
    simp only [stitchToSingleImage, drawOps, List.getElem?_map]
    rw [List.getElem?_range (show i < n by omega)]
    simp only [Option.map_some']
    rw [if_neg]
    intro hc
    exact absurd hc.1 (by omega)
  · intro hr
    have hdm := Nat.div_add_mod M.scrollHeight M.viewportHeight
    have hmod : M.scrollHeight % M.viewportHeight < M.viewportHeight :=
      Nat.mod_lt _ hvh
    have hEq : n = M.scrollHeight / M.viewportHeight + 1 := by
      rw [hn, jsCeilDiv_of_mod_ne hvh hr]
    have hn1 : 1 ≤ n := by
      rw [hEq]
      exact Nat.le_add_left 1 _
    have hlt : n - 1 < n := Nat.sub_lt hn1 Nat.one_pos
    simp only [stitchToSingleImage, drawOps, List.getElem?_map]
    rw [List.getElem?_range hlt]
    simp only [Option.map_some']
    have hdmZ : (M.viewportHeight : Int) *
          ((M.scrollHeight / M.viewportHeight : Nat) : Int) +
          ((M.scrollHeight % M.viewportHeight : Nat) : Int)
        = (M.scrollHeight : Int) := by
      exact_mod_cast congrArg (fun x : Nat => (x : Int)) hdm
    have hq : ((n - 1 : Nat) : Int) =
        ((M.scrollHeight / M.viewportHeight : Nat) : Int) := by
      exact_mod_cast congrArg (fun x : Nat => (x : Int))
        (by rw [hEq]; simp :
          n - 1 = M.scrollHeight / M.viewportHeight)
    have hrem : (M.scrollHeight : Int) - ((n - 1 : Nat) : Int) *
          (M.viewportHeight : Int)
        = ((M.scrollHeight % M.viewportHeight : Nat) : Int) := by
      rw [hq, mul_comm]
      linarith [hdmZ]
    have hcond : True ∧
        (M.scrollHeight : Int) - ((n - 1 : Nat) : Int) *
          (M.viewportHeight : Int) < (M.viewportHeight : Int) := by
      refine ⟨trivial, ?_⟩
      rw [hrem]
      exact_mod_cast hmod
    rw [if_pos hcond, hrem]

/-- Witness for C5 (amended): on `demoMetrics` with its three segments,
the canvas width is the viewport width, 1000. -/
theorem stitchToSingleImage_spec_witness :
    (stitchToSingleImage 3 demoMetrics).canvasWidth =
      demoMetrics.viewportWidth :=
  (stitchToSingleImage_spec demoMetrics 3 (by decide) (by decide)
    (by decide)).1

/-- `ConsoleLogLevel` from the shared types package. -/
inductive ConsoleLogLevel where
  | log
  | warn
  | error
  | info
  | debug
deriving Repr, DecidableEq

/-- `ConsoleLogEntry` from the shared types package. -/
structure ConsoleLogEntry where
  level : ConsoleLogLevel
  message : String
  timestamp : String
  source : Option String := none
deriving Repr, DecidableEq

/-- `MAX_LOGS` from `packages/extension/src/background/debugger/state.ts`. -/
def MAX_LOGS : Nat := 1000

/-- The eviction loop of `handleConsoleEvent`
(`packages/extension/src/background/debugger/console.ts`):
`while (state.consoleLogs.length > MAX_LOGS) state.consoleLogs.shift()`,
dropping the oldest entry from the front until the bound holds. -/
def trimLogs (logs : List ConsoleLogEntry) : List ConsoleLogEntry :=
  if logs.length > MAX_LOGS then trimLogs logs.tail else logs
termination_by logs.length
decreasing_by simp [List.length_tail]; omega

/-- `handleConsoleEvent` from
`packages/extension/src/background/debugger/console.ts`, restricted to
the console-log buffer of the affected tab (tabs are independent keys
of the `tabStates` map): push the new entry, then evict from the front
while the length exceeds `MAX_LOGS`. -/
def handleConsoleEvent (logs : List ConsoleLogEntry)
    (entry : ConsoleLogEntry) : List ConsoleLogEntry :=
  trimLogs (logs ++ [entry])

lemma trimLogs_eq_drop (logs : List ConsoleLogEntry) :
    trimLogs logs = logs.drop (logs.length - MAX_LOGS) := by
  induction logs using trimLogs.induct with
  | case1 l hlen ih =>
    rw [trimLogs, if_pos hlen, ih]
    cases l with
    | nil => simp at hlen
    | cons a as =>
      simp only [List.tail_cons, List.length_cons]
      have : as.length + 1 - MAX_LOGS = (as.length - MAX_LOGS) + 1 := by
        simp only [List.length_cons] at hlen
        omega
      rw [this, List.drop_succ_cons]
  | case2 l hlen =>
    rw [trimLogs, if_neg hlen]
    have : l.length - MAX_LOGS = 0 := by omega
    rw [this, List.drop_zero]

/-- C10: for every tab, the buffered console-log list never exceeds
`MAX_LOGS = 1000` entries: `handleConsoleEvent` appends the new entry
and then evicts the oldest entries (from the front) until the length is
at most `MAX_LOGS`, so the bound holds after every sequence of console
events starting from the empty buffer. -/
theorem handleConsoleEvent_bounded :
    (∀ (logs : List ConsoleLogEntry) (entry : ConsoleLogEntry),
      handleConsoleEvent logs entry =
        (logs ++ [entry]).drop ((logs ++ [entry]).length - MAX_LOGS)) ∧
    (∀ (logs : List ConsoleLogEntry) (entry : ConsoleLogEntry),
      (handleConsoleEvent logs entry).length ≤ MAX_LOGS) ∧
    (∀ (events : List ConsoleLogEntry),
      ((events.foldl handleConsoleEvent
        ([] : List ConsoleLogEntry)).length ≤ MAX_LOGS)) := by
  have hdrop : ∀ (logs : List ConsoleLogEntry) (entry : ConsoleLogEntry),
      handleConsoleEvent logs entry =
        (logs ++ [entry]).drop ((logs ++ [entry]).length - MAX_LOGS) :=
    fun logs entry => trimLogs_eq_drop (logs ++ [entry])
  have hbound : ∀ (logs : List ConsoleLogEntry) (entry : ConsoleLogEntry),
      (handleConsoleEvent logs entry).length ≤ MAX_LOGS := by
    intro logs entry
    rw [hdrop, List.length_drop]
    omega
  refine ⟨hdrop, hbound, ?_⟩
  intro events
  induction events using List.reverseRecOn with
  | nil => simp
  | append_singleton es e ih =>
    rw [List.foldl_append, List.foldl_cons, List.foldl_nil]
    exact hbound _ e

namespace ExtensionBridge

/-- How a pending request's promise is settled, per the failure taxonomy
of `ExtensionBridge`
(`packages/mcp-server/src/extension-bridge/websocket-server.ts`):
resolved with data, rejected with the remote-reported error, rejected
with the request-timeout error, or rejected with the shutdown error. -/
inductive Settlement where
  | resolved
  | rejectedRemote
  | rejectedTimeout
  | rejectedShutdown
deriving Repr, DecidableEq

/-- The observable state of an `ExtensionBridge` instance:
`pending` is the key set of the `pendingRequests` map (correlation IDs,
modelled as `Nat`, each entry's one-shot timer armed exactly while the
entry exists, since every removal is paired with `clearTimeout` in the
source); `settled` is the log of promise settlements, in order;
`connection` records whether a live open peer WebSocket is held;
`serverOpen` whether the listening socket is open; `wire` the ids of
request envelopes sent to the peer, in order. -/
structure BridgeState where
  pending : List Nat
  settled : List (Nat × Settlement)
  connection : Bool
  serverOpen : Bool
  wire : List Nat
deriving Repr, DecidableEq

/-- `handleMessage` of `ExtensionBridge`, for a `response` message with
correlation id `id` and success flag `success`: if a pending entry
exists, clear its timer, delete it, and settle the promise (resolve on
success, reject with the remote error otherwise); a response with no
matching entry is ignored. -/
def handleMessage (s : BridgeState) (id : Nat) (success : Bool) :
    BridgeState :=
  if id ∈ s.pending then
    { s with
      pending := s.pending.erase id
      settled := s.settled ++
        [(id, if success then Settlement.resolved
              else Settlement.rejectedRemote)] }
  else s

/-- The `setTimeout` callback registered by `request`: delete the entry
and reject with the timeout error. The callback can only run while the
entry exists, because every other removal path calls `clearTimeout`
first, so the no-entry branch is a no-op. -/
def timeoutFire (s : BridgeState) (id : Nat) : BridgeState :=
  if id ∈ s.pending then
    { s with
      pending := s.pending.erase id
      settled := s.settled ++ [(id, Settlement.rejectedTimeout)] }
  else s

/-- Outcome of a `request` call: the not-connected rejection thrown
before anything is registered or sent, or an envelope handed to the
live connection. -/
inductive RequestOutcome where
  | notConnected
  | sent
deriving Repr, DecidableEq

/-- `request` of `ExtensionBridge`: with no live open peer connection it
throws the not-connected error at once — before any timer is set, any
pending entry is created or anything is sent; otherwise it registers the
pending entry (arming its timer) and sends the envelope. -/
def request (s : BridgeState) (id : Nat) : BridgeState × RequestOutcome :=
  if s.connection then
    ({ s with pending := s.pending ++ [id], wire := s.wire ++ [id] },
      RequestOutcome.sent)
  else (s, RequestOutcome.notConnected)

/-- `stop` of `ExtensionBridge`: clear every pending entry's timer and
reject it with the shutdown error, clear the table, close the live
connection, and close the listening socket (the returned promise
resolves only in the socket's close callback, i.e. in a state where
`serverOpen = false`). -/
def stop (s : BridgeState) : BridgeState :=
  { pending := []
    settled := s.settled ++
      s.pending.map fun id => (id, Settlement.rejectedShutdown)
    connection := false
    serverOpen := false
    wire := s.wire }

/-- The two event sources that can settle a pending request while the
bridge runs: an incoming response message, and a request timer firing.
Both run to completion on the single event loop. -/
inductive BridgeEvent where
  | response (id : Nat) (success : Bool)
  | timerFire (id : Nat)
deriving Repr, DecidableEq

/-- Event dispatch of the bridge's run loop. -/
def step (s : BridgeState) (e : BridgeEvent) : BridgeState :=
  match e with
  | BridgeEvent.response id ok => handleMessage s id ok
  | BridgeEvent.timerFire id => timeoutFire s id

/-- The correlation ids that have been settled, in settlement order. -/
def settledIds (s : BridgeState) : List Nat := s.settled.map Prod.fst

/-- Bridge state invariant: pending ids are distinct, no id is settled
twice, and a settled id is no longer pending. -/
def BridgeInv (s : BridgeState) : Prop :=
  s.pending.Nodup ∧ (settledIds s).Nodup ∧
    ∀ id ∈ settledIds s, id ∉ s.pending

instance (s : BridgeState) : Decidable (BridgeInv s) := by
  unfold BridgeInv
  infer_instance

lemma inv_settle {s : BridgeState} {id : Nat} (t : Settlement)
    (hinv : BridgeInv s) (hid : id ∈ s.pending) :
    BridgeInv
      { s with
        pending := s.pending.erase id
        settled := s.settled ++ [(id, t)] } := by
  obtain ⟨h1, h2, h3⟩ := hinv
  refine ⟨h1.erase id, ?_, ?_⟩
  · show ((s.settled ++ [(id, t)]).map Prod.fst).Nodup
    rw [List.map_append]
    refine List.Nodup.append h2 (List.nodup_singleton id) ?_
    intro a ha hb
    rw [List.map_singleton, List.mem_singleton] at hb
    subst hb
    exact h3 a ha hid
  · intro j hj
    show j ∉ s.pending.erase id
    have hj2 : j ∈ (s.settled ++ [(id, t)]).map Prod.fst := hj
    rw [List.map_append, List.mem_append, List.map_singleton,
      List.mem_singleton] at hj2
    rcases hj2 with hjold | hjid
    · intro hmem
      exact h3 j hjold (List.mem_of_mem_erase hmem)
    · subst hjid
      intro hmem
      rcases (h1.mem_erase_iff).1 hmem with ⟨hne, _⟩
      exact hne rfl

lemma handleMessage_inv {s : BridgeState} (id : Nat) (ok : Bool)
    (hinv : BridgeInv s) : BridgeInv (handleMessage s id ok) := by
  unfold handleMessage
  by_cases hid : id ∈ s.pending
  · rw [if_pos hid]
    exact inv_settle _ hinv hid
  · rw [if_neg hid]
    exact hinv

lemma timeoutFire_inv {s : BridgeState} (id : Nat)
    (hinv : BridgeInv s) : BridgeInv (timeoutFire s id) := by
  unfold timeoutFire
  by_cases hid : id ∈ s.pending
  · rw [if_pos hid]
    exact inv_settle _ hinv hid
  · rw [if_neg hid]
    exact hinv

lemma step_inv {s : BridgeState} (e : BridgeEvent)
    (hinv : BridgeInv s) : BridgeInv (step s e) := by
  cases e with
  | response id ok => exact handleMessage_inv id ok hinv
  | timerFire id => exact timeoutFire_inv id hinv

lemma foldl_step_inv :
    ∀ (events : List BridgeEvent) (s : BridgeState),
      BridgeInv s → BridgeInv (events.foldl step s) := by
  intro events
  induction events with
  | nil => exact fun s h => h
  | cons e es ih =>
    intro s hinv
    exact ih (step s e) (step_inv e hinv)

end ExtensionBridge

namespace ExtensionBridge

/-- C4: a pending request whose timer fires (no response consumed it
within the timeout budget) is rejected with the timeout error and
removed from the pending table; any response carrying that correlation
id arriving afterwards has no observable effect (the state is
unchanged, so no second resolution or rejection and no exception), and
along any event sequence from a well-formed state no request is ever
settled more than once, even if multiple responses with its id arrive. -/
theorem bridge_timeout_once (s : BridgeState) (id : Nat) :
    (∀ ok : Bool, id ∉ s.pending → handleMessage s id ok = s) ∧
    (id ∈ s.pending → s.pending.Nodup →
      (timeoutFire s id).settled =
        s.settled ++ [(id, Settlement.rejectedTimeout)] ∧
      id ∉ (timeoutFire s id).pending ∧
      ∀ ok : Bool,
        handleMessage (timeoutFire s id) id ok = timeoutFire s id) ∧
    (∀ events : List BridgeEvent, BridgeInv s →
      BridgeInv (events.foldl step s) ∧
      (settledIds (events.foldl step s)).Nodup) := by
  refine ⟨?_, ?_, ?_⟩
  · intro ok hid
    unfold handleMessage
    rw [if_neg hid]
  · intro hid hnd
    have hnotmem : id ∉ s.pending.erase id := by
      intro hmem
      rcases (hnd.mem_erase_iff).1 hmem with ⟨hne, _⟩
      exact hne rfl
    unfold timeoutFire
    rw [if_pos hid]
    refine ⟨rfl, hnotmem, ?_⟩
    intro ok
    unfold handleMessage
    rw [if_neg hnotmem]
  · intro events hinv
    have h := foldl_step_inv events s hinv
    exact ⟨h, h.2.1⟩

end ExtensionBridge

namespace ExtensionBridge

/-- A bridge with a live peer and two requests in flight. -/
def sampleState : BridgeState :=
  { pending := [7, 8]
    settled := []
    connection := true
    serverOpen := true
    wire := [7, 8] }

/-- Witness for C4: on `sampleState`, the timer for request 7 fires; the
request is rejected with the timeout error and leaves the pending
table, and a late response for 7 then changes nothing. -/
theorem bridge_timeout_once_witness :
    (timeoutFire sampleState 7).settled =
      sampleState.settled ++ [(7, Settlement.rejectedTimeout)] ∧
    7 ∉ (timeoutFire sampleState 7).pending ∧
    handleMessage (timeoutFire sampleState 7) 7 true =
      timeoutFire sampleState 7 := by
  have h := (bridge_timeout_once sampleState 7).2.1 (by decide) (by decide)
  exact ⟨h.1, h.2.1, h.2.2 true⟩

/-- C7: `stop()` on a bridge with K pending requests rejects all K of
them with the shutdown error (and nothing else is added to the
settlement log), leaves the pending table empty, closes the live peer
connection, and closes the listening socket (the state in which the
returned promise resolves). -/
theorem stop_spec (s : BridgeState) :
    (stop s).pending = [] ∧
    (stop s).connection = false ∧
    (stop s).serverOpen = false ∧
    (stop s).settled.length = s.settled.length + s.pending.length ∧
    (∀ id, id ∈ s.pending →
      (id, Settlement.rejectedShutdown) ∈ (stop s).settled) ∧
    (∀ p ∈ (stop s).settled,
      p ∈ s.settled ∨ p.2 = Settlement.rejectedShutdown) := by
  refine ⟨rfl, rfl, rfl, by simp [stop], ?_, ?_⟩
  · intro id hid
    show (id, Settlement.rejectedShutdown) ∈
      s.settled ++ s.pending.map fun i => (i, Settlement.rejectedShutdown)
    refine List.mem_append_right _ ?_
    exact List.mem_map_of_mem _ hid
  · intro p hp
    have hp2 : p ∈ s.settled ++
        s.pending.map (fun i => (i, Settlement.rejectedShutdown)) := hp
    rw [List.mem_append] at hp2
    rcases hp2 with hold | hnew
    · exact Or.inl hold
    · right
      rcases List.mem_map.1 hnew with ⟨i, _, hi⟩
      rw [← hi]

/-- Witness for C7: stopping `sampleState` (K = 2) rejects request 8
with the shutdown error. -/
theorem stop_spec_witness :
    ((8 : Nat), Settlement.rejectedShutdown) ∈ (stop sampleState).settled :=
  (stop_spec sampleState).2.2.2.2.1 8 (by decide)

/-- A bridge with no peer connected. -/
def idleState : BridgeState :=
  { pending := []
    settled := []
    connection := false
    serverOpen := true
    wire := [] }

/-- C8: `request` sends an envelope if and only if a live peer
connection exists; when no peer is connected it rejects immediately
with the not-connected error, before the timeout timer would even be
created, and the state — pending table included — is left untouched,
so the request is never queued for a future connection. -/
theorem request_spec (s : BridgeState) (id : Nat) :
    ((request s id).2 = RequestOutcome.sent ↔ s.connection = true) ∧
    (s.connection = false →
      request s id = (s, RequestOutcome.notConnected)) ∧
    (s.connection = true →
      (request s id).1.pending = s.pending ++ [id] ∧
      (request s id).1.wire = s.wire ++ [id] ∧
      (request s id).2 = RequestOutcome.sent) := by
  cases hconn : s.connection with
  | false => simp [request, hconn]
  | true => simp [request, hconn]

/-- Witness for C8: a request on `idleState` (no peer) fails at once
with the not-connected outcome and changes nothing. -/
theorem request_spec_witness :
    request idleState 5 = (idleState, RequestOutcome.notConnected) :=
  (request_spec idleState 5).2.1 rfl

end ExtensionBridge

/-- Outcome of one bind attempt on a candidate port. -/
inductive BindOutcome where
  | ok
  | addrInUse
  | otherError
deriving Repr, DecidableEq

/-- Outcome of the port allocator's `start()`: listening on the port
that won, the distinct no-available-port error after exhausting the
range, or (never produced by the scanner, kept so distinguishability is
expressible) the surfacing of a raw bind error. -/
inductive StartOutcome where
  | listening (port : Nat)
  | noAvailablePort
  | bindError (e : BindOutcome)
deriving Repr, DecidableEq

/-- Modelled from the spec: the port-range-scanning `start()` of the
newer `ExtensionBridge` (its `tryPort` loop) is not in the source tree —
only its unit tests and the extension-side `ConnectionManager` consumer
ship. Per the spec (§4.2 Port Allocator): given a base port and a range
size, attempt to bind `base, base+1, …, base+range-1` in order; the
first successful bind wins; a bind failure — address-in-use or any
other system error — is skippable and advances to the next candidate;
exhausting the range yields the distinct no-available-port error. The
bind primitive is a parameter. -/
def scanPorts (bind : Nat → BindOutcome) : Nat → Nat → StartOutcome
  | _, 0 => StartOutcome.noAvailablePort
  | base, rangeSize + 1 =>
    match bind base with
    | BindOutcome.ok => StartOutcome.listening base
    | BindOutcome.addrInUse => scanPorts bind (base + 1) rangeSize
    | BindOutcome.otherError => scanPorts bind (base + 1) rangeSize

/-- C1: for every base port and range size, the allocator attempts
`base, base+1, …, base+range-1` in order and the first successful bind
wins: if position `i` in the range is the first candidate that binds
successfully (every earlier candidate fails, with address-in-use or any
other error), `start()` listens on `base + i`. In particular, an
occupied base port makes it bind `base + 1` when that one is free. -/
theorem scanPorts_first_free (bind : Nat → BindOutcome)
    (base range i : Nat) (hi : i < range)
    (hok : bind (base + i) = BindOutcome.ok)
    (hbusy : ∀ j, j < i → bind (base + j) ≠ BindOutcome.ok) :
    scanPorts bind base range = StartOutcome.listening (base + i) := by
  induction range generalizing base i with
  | zero => omega
  | succ n ih =>
    cases hb : bind base with
    | ok =>
      have hi0 : i = 0 := by
        by_contra hne
        exact hbusy 0 (by omega) (by simpa using hb)
      subst hi0
      simp [scanPorts, hb]
    | addrInUse =>
      have hipos : 0 < i := by
        rcases Nat.eq_zero_or_pos i with h0 | h
        · subst h0
          rw [Nat.add_zero] at hok
          rw [hok] at hb
          exact BindOutcome.noConfusion hb
        · exact h
      have hrec := ih (base + 1) (i - 1) (by omega)
        (by rw [show base + 1 + (i - 1) = base + i by omega]; exact hok)
        (fun j hj => by
          rw [show base + 1 + j = base + (j + 1) by omega]
          exact hbusy (j + 1) (by omega))
      rw [show base + i = base + 1 + (i - 1) by omega]
      simpa [scanPorts, hb] using hrec
    | otherError =>
      have hipos : 0 < i := by
        rcases Nat.eq_zero_or_pos i with h0 | h
        · subst h0
          rw [Nat.add_zero] at hok
          rw [hok] at hb
          exact BindOutcome.noConfusion hb
        · exact h
      have hrec := ih (base + 1) (i - 1) (by omega)
        (by rw [show base + 1 + (i - 1) = base + i by omega]; exact hok)
        (fun j hj => by
          rw [show base + 1 + j = base + (j + 1) by omega]
          exact hbusy (j + 1) (by omega))
      rw [show base + i = base + 1 + (i - 1) by omega]
      simpa [scanPorts, hb] using hrec

/-- A bind environment in which only the base port 9222 is occupied. -/
def busyBase : Nat → BindOutcome :=
  fun p => if p = 9222 then BindOutcome.addrInUse else BindOutcome.ok

/-- Witness for C1: with base 9222 occupied and range 10, the allocator
listens on 9223. -/
theorem scanPorts_first_free_witness :
    scanPorts busyBase 9222 10 = StartOutcome.listening (9222 + 1) :=
  scanPorts_first_free busyBase 9222 10 1 (by decide) (by decide)
    (by decide)

lemma scanPorts_exhausted_aux (bind : Nat → BindOutcome) :
    ∀ (range base : Nat),
      (∀ j, j < range → bind (base + j) ≠ BindOutcome.ok) →
      scanPorts bind base range = StartOutcome.noAvailablePort := by
  intro range
  induction range with
  | zero => intro base _; rfl
  | succ n ih =>
    intro base hbusy
    cases hb : bind base with
    | ok => exact absurd (by simpa using hb) (hbusy 0 (by omega))
    | addrInUse =>
      simp only [scanPorts, hb]
      exact ih (base + 1) fun j hj => by
        rw [show base + 1 + j = base + (j + 1) by omega]
        exact hbusy (j + 1) (by omega)
    | otherError =>
      simp only [scanPorts, hb]
      exact ih (base + 1) fun j hj => by
        rw [show base + 1 + j = base + (j + 1) by omega]
        exact hbusy (j + 1) (by omega)

/-- C2: if every port in the configured range fails to bind, `start()`
produces the distinct no-available-port error, which is a different
constructor from any raw bind error — so the two rejections are
distinguishable. -/
theorem scanPorts_exhausted (bind : Nat → BindOutcome) (base range : Nat)
    (hbusy : ∀ j, j < range → bind (base + j) ≠ BindOutcome.ok) :
    scanPorts bind base range = StartOutcome.noAvailablePort ∧
    ∀ e : BindOutcome,
      scanPorts bind base range ≠ StartOutcome.bindError e := by
  have h := scanPorts_exhausted_aux bind range base hbusy
  refine ⟨h, ?_⟩
  intro e heq
  rw [h] at heq
  exact StartOutcome.noConfusion heq

/-- Witness for C2: with every candidate occupied (range 3 from 9222),
the allocator reports no available port. -/
theorem scanPorts_exhausted_witness :
    scanPorts (fun _ => BindOutcome.addrInUse) 9222 3 =
      StartOutcome.noAvailablePort :=
  (scanPorts_exhausted (fun _ => BindOutcome.addrInUse) 9222 3
    (fun _ _ => fun h => BindOutcome.noConfusion h)).1
